import Mathlib

/-!
Verification development for the payroll-normalization core
(`src/utils.py` and `src/data_processor.py`).

The embedding models pandas/Python scalar semantics shallowly:

* Python floats are modelled by `PyFloat`: an exact decimal fraction
  (`Dec`) for finite values plus the three non-finite values `inf`,
  `-inf`, `nan`.  Every finite value the code can produce is a decimal
  fraction (parsed decimal literals, integers, sums, `* 100`), so the
  representation is closed under the program's arithmetic.  Binary
  rounding of decimal literals is not modelled (values are kept exact),
  and a decimal literal large enough to overflow a double stays finite
  in the model.
* DataFrame cells are modelled by `CellValue`: missing (NaN/None),
  strings, integers and datetime values.  Fractional numeric cells are
  not modelled separately; the payroll counts are integers.
* `str()` of a missing cell renders as "nan" (the pandas NaN rendering).
* Python `float(str)` is modelled including signs, underscores between
  digits, exponents, and the case-insensitive literals inf/infinity/nan.
  Unicode digits and unicode whitespace are outside the model (ASCII
  only).
-/

/-- An exact decimal fraction `num / 10 ^ exp`, kept in the canonical
form where `exp = 0` or `num` is not divisible by 10, so that
structural equality coincides with equality of values. -/
structure Dec where
  num : ℤ
  exp : ℕ
deriving Repr, DecidableEq

/-- Normalize `n / 10 ^ e` by removing common factors of 10. -/
def Dec.norm (n : ℤ) : ℕ → Dec
  | 0 => ⟨n, 0⟩
  | e + 1 => if n % 10 = 0 then Dec.norm (n / 10) e else ⟨n, e + 1⟩

/-- Embed an integer as a decimal fraction. -/
def Dec.ofInt (n : ℤ) : Dec := ⟨n, 0⟩

/-- Exact addition of decimal fractions. -/
def Dec.add (a b : Dec) : Dec :=
  let m := max a.exp b.exp
  Dec.norm (a.num * 10 ^ (m - a.exp) + b.num * 10 ^ (m - b.exp)) m

/-- Negation of a decimal fraction. -/
def Dec.neg (a : Dec) : Dec := ⟨-a.num, a.exp⟩

/-- Multiplication of a decimal fraction by `10 ^ k`. -/
def Dec.mulPow10 (a : Dec) (k : ℕ) : Dec := Dec.norm (a.num * 10 ^ k) a.exp

/-- Division of a decimal fraction by `10 ^ k`. -/
def Dec.divPow10 (a : Dec) (k : ℕ) : Dec := Dec.norm a.num (a.exp + k)

/-- Multiplication of a decimal fraction by 100. -/
def Dec.mul100 (a : Dec) : Dec := Dec.norm (a.num * 100) a.exp

/-- Truncation toward zero (Python `int(float)`). -/
def Dec.trunc (a : Dec) : ℤ := Int.tdiv a.num (10 ^ a.exp)

/-- A Python float value: finite (kept exact as a decimal fraction),
`inf`, `-inf` or `nan`. -/
inductive PyFloat where
  | finite (q : Dec)
  | pinf
  | ninf
  | nan
deriving Repr, DecidableEq

namespace PyFloat

/-- Finiteness of a Python float. -/
def isFinite : PyFloat → Bool
  | finite _ => true
  | _ => false

/-- The float zero. -/
def zero : PyFloat := finite ⟨0, 0⟩

end PyFloat

/-- Python float addition (IEEE special-value rules; finite arithmetic is
exact in the model). -/
def pyAdd : PyFloat → PyFloat → PyFloat
  | .nan, _ => .nan
  | _, .nan => .nan
  | .pinf, .ninf => .nan
  | .ninf, .pinf => .nan
  | .pinf, _ => .pinf
  | _, .pinf => .pinf
  | .ninf, _ => .ninf
  | _, .ninf => .ninf
  | .finite a, .finite b => .finite (a.add b)

/-- Python `x * 100` on a float (100 is positive, so infinities keep
their sign and `nan` propagates). -/
def pyMul100 : PyFloat → PyFloat
  | .finite q => .finite q.mul100
  | .pinf => .pinf
  | .ninf => .ninf
  | .nan => .nan

/-- Python `x > 0` on a float (`nan > 0` is `False`). -/
def pyGt0 : PyFloat → Bool
  | .finite q => decide (0 < q.num)
  | .pinf => true
  | .ninf => false
  | .nan => false

/-- A calendar date as Python's `datetime` stores it (proleptic
Gregorian; the valid range is enforced by `mkDatetime`, not by the
structure). -/
structure PyDate where
  year : ℤ
  month : ℤ
  day : ℤ
deriving Repr, DecidableEq

/-- A DataFrame cell: missing (NaN/None), a string, an integer, or a
datetime value. -/
inductive CellValue where
  | null
  | str (s : String)
  | int (n : ℤ)
  | dt (d : PyDate)
deriving Repr, DecidableEq

/-- `pd.isna` on a scalar cell. -/
def isna : CellValue → Bool
  | .null => true
  | _ => false

/-- ASCII decimal digit test (`'0'` to `'9'`). -/
def isDigitChar (c : Char) : Bool := '0' ≤ c && c ≤ '9'

/-- Numeric value of an ASCII digit. -/
def digitVal (c : Char) : ℕ := c.toNat - 48

/-- ASCII whitespace test, used to model Python's `str.strip`. -/
def isWs (c : Char) : Bool := c = ' ' || c = '\t' || c = '\n' || c = '\r'

/-- Drop leading whitespace from a character list. -/
def dropWsL : List Char → List Char
  | [] => []
  | c :: cs => if isWs c then dropWsL cs else c :: cs

/-- Python `str.strip()` on a character list. -/
def trimCharsL (l : List Char) : List Char :=
  ((dropWsL ((dropWsL l).reverse)).reverse)

/-- Python `str.strip()`. -/
def trimS (s : String) : String := ⟨trimCharsL s.data⟩

/-- Python `str.lower()` (ASCII range). -/
def lowerS (s : String) : String := ⟨s.data.map Char.toLower⟩

/-- Whether `needle` occurs contiguously inside `hay`
(Python's `needle in hay` on strings). -/
def containsSub (hay needle : List Char) : Bool :=
  hay.tails.any (fun t => needle.isPrefixOf t)

/-- Python `tok in s.lower()`. -/
def containsTokLower (s tok : String) : Bool :=
  containsSub (lowerS s).data tok.data

/-- Consume a maximal run of ASCII digits, allowing a single `'_'`
between two digits as Python numeric literals do.  Returns the
accumulated value, the number of digits consumed and the rest of the
input. -/
def takeDigitsU : ℕ → ℕ → List Char → ℕ × ℕ × List Char
  | acc, cnt, [] => (acc, cnt, [])
  | acc, cnt, c :: cs =>
    if isDigitChar c then takeDigitsU (10 * acc + digitVal c) (cnt + 1) cs
    else if c = '_' && decide (0 < cnt) &&
            (match cs with | d :: _ => isDigitChar d | [] => false) then
      takeDigitsU acc cnt cs
    else (acc, cnt, c :: cs)

/-- Parse the body (after an optional sign) of a Python decimal float
literal: digits, an optional fractional part and an optional exponent.
Fails unless the whole input is consumed. -/
def parseDecimalBody (l : List Char) : Option Dec :=
  let (ip, ic, r1) := takeDigitsU 0 0 l
  let (fp, fc, r2) :=
    match r1 with
    | '.' :: rest => takeDigitsU 0 0 rest
    | _ => (0, 0, r1)
  if ic + fc = 0 then none
  else
    let mant : Dec := Dec.norm ((ip : ℤ) * 10 ^ fc + (fp : ℤ)) fc
    match r2 with
    | [] => some mant
    | e :: r3 =>
      if e = 'e' || e = 'E' then
        let (eneg, r4) :=
          match r3 with
          | '+' :: r => (false, r)
          | '-' :: r => (true, r)
          | _ => (false, r3)
        let (ev, ecnt, r5) := takeDigitsU 0 0 r4
        if 0 < ecnt ∧ r5 = [] then
          some (if eneg then mant.divPow10 ev else mant.mulPow10 ev)
        else none
      else none

/-- Peel one optional sign off the front, returning whether it was a
minus together with the remainder. -/
def splitSign (l : List Char) : Bool × List Char :=
  match l with
  | '+' :: r => (false, r)
  | '-' :: r => (true, r)
  | _ => (false, l)

/-- Recognize Python's special float literals `inf`, `infinity`, `nan`
(case-insensitive, after stripping whitespace and one optional sign). -/
def parseSpecialFloat (s : String) : Option PyFloat :=
  let low := (splitSign (trimCharsL s.data)).2.map Char.toLower
  if low = "inf".data || low = "infinity".data then
    some (if (splitSign (trimCharsL s.data)).1 then .ninf else .pinf)
  else if low = "nan".data then some .nan
  else none

/-- Python `float(s)` on a string: strip whitespace, one optional sign,
then either a special literal or a decimal literal. -/
def pyFloatOfString (s : String) : Option PyFloat :=
  match parseSpecialFloat s with
  | some x => some x
  | none =>
    match parseDecimalBody (splitSign (trimCharsL s.data)).2 with
    | some q =>
      some (.finite (if (splitSign (trimCharsL s.data)).1 then q.neg else q))
    | none => none

/-- Python `float(value)` on a cell: numbers convert directly, strings
parse via `pyFloatOfString`, datetimes raise (`none`). -/
def pyFloatOfCell : CellValue → Option PyFloat
  | .null => none
  | .str s => pyFloatOfString s
  | .int n => some (.finite (Dec.ofInt n))
  | .dt _ => none

/-- Remove every occurrence of a character (Python `s.replace(c, "")`). -/
def removeChar (c : Char) (s : String) : String :=
  ⟨s.data.filter (fun x => x ≠ c)⟩

/-- Replace every occurrence of a character (Python `s.replace(a, b)`). -/
def replaceChar (a b : Char) (s : String) : String :=
  ⟨s.data.map (fun x => if x = a then b else x)⟩

/-- The European-format transformation of `to_float`:
`value.replace(".", "").replace(",", ".")`. -/
def euroTransform (s : String) : String :=
  replaceChar ',' '.' (removeChar '.' s)

/-- The currency-stripping transformation of `to_float`:
`value.replace("€", "").replace("$", "").strip()`. -/
def stripCurrency (s : String) : String :=
  trimS (removeChar '$' (removeChar '€' s))

/-- `utils.to_float`: convert a cell to a float, trying direct
conversion, then the European number format, then currency stripping,
and returning `0.0` when everything fails.  Missing values map to
`0.0` via the initial `pd.isna` check. -/
def to_float (v : CellValue) : PyFloat :=
  if isna v then PyFloat.zero
  else
    match pyFloatOfCell v with
    | some x => x
    | none =>
      match v with
      | .str s =>
        match pyFloatOfString (euroTransform s) with
        | some x => x
        | none =>
          match pyFloatOfString (euroTransform (stripCurrency s)) with
          | some x => x
          | none => PyFloat.zero
      | _ => PyFloat.zero

/-- `to_float` as applied by `process_data` (lines 301-304) to columns
that already hold float values: `pd.isna` is true exactly on `nan`, and
`float(x)` is the identity on floats, so only `nan` collapses to
`0.0`. -/
def to_float_num : PyFloat → PyFloat
  | .nan => PyFloat.zero
  | x => x

/-- Zero-pad to two digits (Python `f"{n:02d}"` for the non-negative
values that occur here). -/
def pad2Z (n : ℤ) : String :=
  if 0 ≤ n ∧ n < 10 then "0" ++ toString n else toString n

/-- Zero-pad to four digits (the `%04d`-style year rendering used by
`datetime`/`Timestamp` string forms; non-negative values only occur). -/
def pad4Z (n : ℤ) : String :=
  if 0 ≤ n ∧ n < 10 then "000" ++ toString n
  else if 0 ≤ n ∧ n < 100 then "00" ++ toString n
  else if 0 ≤ n ∧ n < 1000 then "0" ++ toString n
  else toString n

/-- The `DD/MM/YYYY` rendering of a date: zero-padded day and month and
a (four-digit-padded) year.  This is the spec-side rendering used to
state claim C10. -/
def fmtSpec (d : PyDate) : String :=
  pad2Z d.day ++ "/" ++ pad2Z d.month ++ "/" ++ pad4Z d.year

/-- Python `str(value)` on a cell.  A missing cell renders as `"nan"`
(the pandas NaN); a datetime cell renders in the
`YYYY-MM-DD HH:MM:SS` form of `str(Timestamp)`. -/
def pyStr : CellValue → String
  | .null => "nan"
  | .str s => s
  | .int n => toString n
  | .dt d => pad4Z d.year ++ "-" ++ pad2Z d.month ++ "-" ++ pad2Z d.day ++ " 00:00:00"

/-- Python `s.split(sep)` for a single-character separator. -/
def splitOnCharL (sep : Char) : List Char → List (List Char)
  | [] => [[]]
  | c :: cs =>
    let r := splitOnCharL sep cs
    if c = sep then [] :: r
    else
      match r with
      | [] => [[c]]
      | h :: t => (c :: h) :: t

/-- Python `str.isdigit` (ASCII range). -/
def isDigitsL (l : List Char) : Bool := !l.isEmpty && l.all isDigitChar

/-- Numeric value of a non-empty ASCII digit string (`int(s)`). -/
def natOfDigitsL (l : List Char) : ℕ :=
  l.foldl (fun a c => 10 * a + digitVal c) 0

/-- `isLeapB`: the leap-year test written inline at
`data_processor.py:167`:
`(anno % 4 == 0 and anno % 100 != 0) or (anno % 400 == 0)` (Python `%`
with a positive modulus agrees with the mathematical `emod`). -/
def isLeapB (y : ℤ) : Bool :=
  (y % 4 == 0 && y % 100 != 0) || (y % 400 == 0)

/-- `ultimo_giorno`: the last day of a month as computed inline at
`data_processor.py:163-172` (months 4, 6, 9, 11 have 30 days, February
28/29 by the leap rule, everything else 31). -/
def ultimoGiorno (mese anno : ℤ) : ℤ :=
  if mese = 4 ∨ mese = 6 ∨ mese = 9 ∨ mese = 11 then 30
  else if mese = 2 then (if isLeapB anno then 29 else 28)
  else 31

/-- Python `datetime(year, month, day)`: validates year in 1..9999,
month in 1..12 and day within the month length (Python's internal
month-length table coincides with `ultimoGiorno` on months 1..12);
`none` models the `ValueError`. -/
def mkDatetime (y m d : ℤ) : Option PyDate :=
  if 1 ≤ y ∧ y ≤ 9999 ∧ 1 ≤ m ∧ m ≤ 12 ∧ 1 ≤ d ∧ d ≤ ultimoGiorno m y then
    some ⟨y, m, d⟩
  else none

/-- The under-approximation of `pd.to_datetime(value, errors="coerce")`
used by strategy 3 of the day cascade: genuine datetime cells parse to
themselves, everything else is treated as unparseable.  pandas' much
larger parse grammar for strings (dateutil) and its nanosecond-epoch
interpretation of bare numbers are not modelled here; strategy 3 is
only reached by values that strategies 1 and 2 reject, and an
unmodelled parse only moves a value from the "default day 1" case to a
parsed day, which no claim statement about the cascade quantifies over.
The period resolver does not use this function: there the parse is an
explicit parameter (see `parsedDatesOf`). -/
def pdToDatetime : CellValue → Option PyDate
  | .dt d => some d
  | _ => none

/-- Strategy 1 of the day cascade (`data_processor.py:111-116`):
`int(float(str(value).strip()))`, accepted when in `[1, 31]`.  The
`int()` of a non-finite float raises, which the bare `except` absorbs. -/
def str1Day (v : CellValue) : Option ℤ :=
  match pyFloatOfString (trimS (pyStr v)) with
  | some (.finite q) =>
    let n := q.trunc
    if 1 ≤ n ∧ n ≤ 31 then some n else none
  | _ => none

/-- Strategy 2 of the day cascade (`data_processor.py:119-134`): split a
slash- or dash-separated string and take the first component when it is
all digits. -/
def str2Day (v : CellValue) : Option ℤ :=
  let ds := trimCharsL (pyStr v).data
  if ds.contains '/' then
    let p0 := (splitOnCharL '/' ds).headD []
    if isDigitsL p0 then some ((natOfDigitsL p0 : ℕ) : ℤ) else none
  else if ds.contains '-' then
    let p0 := (splitOnCharL '-' ds).headD []
    if isDigitsL p0 then some ((natOfDigitsL p0 : ℕ) : ℤ) else none
  else none

/-- Strategy 3 of the day cascade (`data_processor.py:137-143`): the day
component of a generic datetime parse. -/
def str3Day (v : CellValue) : Option ℤ :=
  (pdToDatetime v).map (fun d => d.day)

/-- The full day cascade: first success among the three strategies
(`giorno` stays `None` when all fail, and the caller then defaults it
to 1). -/
def giornoOf (v : CellValue) : Option ℤ :=
  match str1Day v with
  | some d => some d
  | none =>
    match str2Day v with
    | some d => some d
    | none => str3Day v

/-- The empty/zero test of `data_processor.py:98`:
`pd.isnull(v) or str(v).strip() == "" or str(v).strip() == "0"`. -/
def sentinelCond (v : CellValue) : Bool :=
  isna v || trimS (pyStr v) == "" || trimS (pyStr v) == "0"

/-- One entry of the per-client date mapping: the raw extracted day
(`giorno`), the resolved date (`data`) and its pre-formatted display
string (`data_formattata`). -/
structure ClientDateEntry where
  giorno : ℤ
  data : PyDate
  data_formattata : String
deriving Repr, DecidableEq

/-- The sentinel entry used for empty/zero delivery cells
(`data_processor.py:99-103`). -/
def sentinelEntry : ClientDateEntry := ⟨1, ⟨1900, 1, 1⟩, "01/01/1900"⟩

/-- `mese_da_usare` (`data_processor.py:153`): selected month when the
day is above 15, otherwise the next month with December wrapping. -/
def meseDaUsare (selM giorno : ℤ) : ℤ :=
  if 15 < giorno then selM else selM % 12 + 1

/-- `anno_da_usare` (`data_processor.py:156-158`): the selected year,
incremented when the resolved month number dropped below the selected
month number. -/
def annoDaUsare (selY selM giorno : ℤ) : ℤ :=
  if meseDaUsare selM giorno < selM then selY + 1 else selY

/-- The per-row client-date computation (`data_processor.py:94-195`)
given the delivery cell value: sentinel for empty/zero cells, then the
day cascade (defaulting to 1), the month/year business rule, day
clamping and date construction, with the `ValueError` fallback entry of
lines 189-195.  `none` models the outer per-row `except` skipping the
row (only reachable when even the fallback `datetime` constructor
raises, i.e. for an out-of-range selected year/month). -/
def clientEntry (selY selM : ℤ) (v : CellValue) : Option ClientDateEntry :=
  if sentinelCond v then some sentinelEntry
  else
    let giorno := (giornoOf v).getD 1
    let mese := meseDaUsare selM giorno
    let anno := annoDaUsare selY selM giorno
    let gc := min giorno (ultimoGiorno mese anno)
    match mkDatetime anno mese gc with
    | some dta =>
      some ⟨giorno, dta, pad2Z gc ++ "/" ++ pad2Z mese ++ "/" ++ toString anno⟩
    | none =>
      match mkDatetime selY selM 1 with
      | some dflt => some ⟨1, dflt, "01/" ++ pad2Z selM ++ "/" ++ toString selY⟩
      | none => none

/-- A parsed tabular input: column names plus rows of cells (the
DataFrame handed to `process_data`). -/
structure Table where
  headers : List String
  rows : List (List CellValue)
deriving Repr, DecidableEq

/-- Column-name normalization of `data_processor.py:23`:
`str.strip()` then `str.replace('\n', ' ')`. -/
def normHeader (h : String) : String := replaceChar '\n' ' ' (trimS h)

/-- Index of the first column with exactly the given name (`row[name]`
and `name in df.columns`; duplicate column names are assumed absent). -/
def colIdx (hs : List String) (name : String) : Option ℕ :=
  hs.findIdx? (fun h => h = name)

/-- Association-list lookup modelling Python `dict` lookup. -/
def lookupA : List (String × ClientDateEntry) → String → Option ClientDateEntry
  | [], _ => none
  | (k, e) :: t, c => if k = c then some e else lookupA t c

/-- Association-list insert-or-overwrite modelling Python
`dict[key] = value`. -/
def upsertA : List (String × ClientDateEntry) → String → ClientDateEntry →
    List (String × ClientDateEntry)
  | [], k, e => [(k, e)]
  | (k', e') :: t, k, e =>
    if k' = k then (k, e) :: t else (k', e') :: upsertA t k e

/-- `str(row['Codice']).strip()`; `none` models the `KeyError` when the
table has no `Codice` column (absorbed by the per-row `except`). -/
def rowCode (hs : List String) (r : List CellValue) : Option String :=
  (colIdx hs "Codice").map (fun i => trimS (pyStr (r.getD i .null)))

/-- `row.get('Consegna PDF', None)`. -/
def delivCell (hs : List String) (r : List CellValue) : CellValue :=
  match colIdx hs "Consegna PDF" with
  | some i => r.getD i .null
  | none => .null

/-- One iteration of the date-mapping loop (`data_processor.py:88-197`):
skip rows without a `Codice` column or with an empty trimmed code,
otherwise store the computed entry under the code, overwriting any
previous entry. -/
def mapStep (selY selM : ℤ) (hs : List String)
    (acc : List (String × ClientDateEntry)) (r : List CellValue) :
    List (String × ClientDateEntry) :=
  match rowCode hs r with
  | none => acc
  | some c =>
    if c = "" then acc
    else
      match clientEntry selY selM (delivCell hs r) with
      | none => acc
      | some e => upsertA acc c e

/-- `azienda_to_date_mapping`: the client-code → date-entry dictionary
built by the loop of `data_processor.py:88-197`. -/
def buildMapping (hs : List String) (selY selM : ℤ)
    (rows : List (List CellValue)) : List (String × ClientDateEntry) :=
  rows.foldl (mapStep selY selM hs) []

/-- Lexicographic strict order on dates (Python `datetime <`). -/
def dateLt (a b : PyDate) : Bool :=
  decide (a.year < b.year ∨ (a.year = b.year ∧
    (a.month < b.month ∨ (a.month = b.month ∧ a.day < b.day))))

/-- Lexicographic order on dates (Python `datetime <=`). -/
def dateLe (a b : PyDate) : Bool :=
  decide (a.year < b.year ∨ (a.year = b.year ∧
    (a.month < b.month ∨ (a.month = b.month ∧ a.day ≤ b.day))))

/-- `series.min()` over a list of dates (`none` on the empty list,
matching the all-NaT case). -/
def listMinD : List PyDate → Option PyDate
  | [] => none
  | d :: ds =>
    match listMinD ds with
    | none => some d
    | some m => some (if dateLt d m then d else m)

/-- `series.max()` over a list of dates. -/
def listMaxD : List PyDate → Option PyDate
  | [] => none
  | d :: ds =>
    match listMaxD ds with
    | none => some d
    | some m => some (if dateLt m d then d else m)

/-- The dates of one candidate column that survive
`pd.to_datetime(df[col], errors="coerce")`, empty when the column is
absent so that the column is skipped.  The scalar parse of
`pd.to_datetime` is the full dateutil grammar, which no finite
specification captures; the period resolver is therefore modelled
uniformly in an arbitrary cell-parse function `toDT`, and every theorem
about it below holds for any such function — in particular for the
parse pandas actually implements. -/
def parsedDatesOf (toDT : CellValue → Option PyDate) (t : Table)
    (col : String) : List PyDate :=
  match colIdx t.headers col with
  | some i => t.rows.filterMap (fun r => toDT (r.getD i .null))
  | none => []

/-- One iteration of the candidate-column scan of
`utils.py:102-113`: update the running minimum and maximum with the
column's min/max, with the strict comparisons of the source. -/
def scanStep (toDT : CellValue → Option PyDate) (t : Table)
    (st : Option PyDate × Option PyDate)
    (col : String) : Option PyDate × Option PyDate :=
  let parsed := parsedDatesOf toDT t col
  match listMinD parsed, listMaxD parsed with
  | some cmin, some cmax =>
    let mn :=
      match st.1 with
      | none => cmin
      | some m => if dateLt cmin m then cmin else m
    let mx :=
      match st.2 with
      | none => cmax
      | some m => if dateLt m cmax then cmax else m
    (some mn, some mx)
  | _, _ => st

/-- The full candidate-column scan. -/
def scanMinMax (toDT : CellValue → Option PyDate) (t : Table)
    (cols : List String) : Option PyDate × Option PyDate :=
  cols.foldl (scanStep toDT t) (none, none)

/-- The resolved reporting period (`date_info`), with all the fields the
source dictionary carries.  `app.py` always supplies every field when
passing a manual override, so the manual path is modelled by passing a
complete `PeriodInfo`. -/
structure PeriodInfo where
  period : String
  start_date : String
  end_date : String
  min_date : PyDate
  max_date : PyDate
  italian_month : String
deriving Repr, DecidableEq

/-- English month name as `strftime("%B")` renders it under the default
C locale (empty for an invalid month, which cannot arise from a genuine
datetime).  The `format_currency` helper can switch the process locale
to Italian; the label text is not the subject of any claim, so the
default-locale names are used. -/
def monthNameEn (m : ℤ) : String :=
  if m = 1 then "January" else if m = 2 then "February"
  else if m = 3 then "March" else if m = 4 then "April"
  else if m = 5 then "May" else if m = 6 then "June"
  else if m = 7 then "July" else if m = 8 then "August"
  else if m = 9 then "September" else if m = 10 then "October"
  else if m = 11 then "November" else if m = 12 then "December" else ""

/-- The fixed Italian month table of `utils.py:136-140`, with the
`dict.get` default. -/
def italianMonth (m : ℤ) (dflt : String) : String :=
  if m = 1 then "gennaio" else if m = 2 then "febbraio"
  else if m = 3 then "marzo" else if m = 4 then "aprile"
  else if m = 5 then "maggio" else if m = 6 then "giugno"
  else if m = 7 then "luglio" else if m = 8 then "agosto"
  else if m = 9 then "settembre" else if m = 10 then "ottobre"
  else if m = 11 then "novembre" else if m = 12 then "dicembre" else dflt

/-- `strftime("%d/%m/%Y")`: zero-padded day and month; the year is
rendered unpadded (glibc `%Y`), exactly like the f-strings of
`data_processor.py`. -/
def strftimeDMY (d : PyDate) : String :=
  pad2Z d.day ++ "/" ++ pad2Z d.month ++ "/" ++ toString d.year

/-- Assemble the `PeriodInfo` dictionary from the resolved minimum and
maximum dates (`utils.py:121-150`). -/
def mkPeriodInfo (mn mx : PyDate) : PeriodInfo :=
  let monthName := monthNameEn mn.month
  let period :=
    if mn.month ≠ mx.month ∨ mn.year ≠ mx.year then
      monthNameEn mn.month ++ " " ++ toString mn.year ++ " - " ++
        monthNameEn mx.month ++ " " ++ toString mx.year
    else monthName ++ " " ++ toString mn.year
  { period := period
    start_date := strftimeDMY mn
    end_date := strftimeDMY mx
    min_date := mn
    max_date := mx
    italian_month := italianMonth mn.month (lowerS monthName) }

/-- `utils.calculate_period_dates`: scan the candidate columns for the
minimum/maximum dates parseable under `toDT` (the scalar parse of
`pd.to_datetime(errors="coerce")`, taken as a parameter — see
`parsedDatesOf`); when none exists, default to the first and last
calendar day of the current month (`now` stands for `datetime.now()`,
passed explicitly to keep the model pure).  The scan
sets the running minimum and maximum together, so the mixed
some/none states of the final match are unreachable and folded into
the fallback arm. -/
def calculate_period_dates (toDT : CellValue → Option PyDate)
    (now : PyDate) (t : Table)
    (dateCols : List String) : PeriodInfo :=
  match scanMinMax toDT t dateCols with
  | (some mn, some mx) => mkPeriodInfo mn mx
  | _ =>
    mkPeriodInfo ⟨now.year, now.month, 1⟩
      ⟨now.year, now.month, ultimoGiorno now.month now.year⟩

/-- A value as it sits in an output column: either a float produced by
`to_float`/arithmetic, or a raw cell (the name-based fallback keeps raw
cells in columns that bypass numeric conversion). -/
inductive PyVal where
  | flt (x : PyFloat)
  | cell (c : CellValue)
deriving Repr, DecidableEq

/-- One row of the canonical output of `process_data` (the dictionary
appended at `data_processor.py:241-253`).  `dataStr` is the `Data`
column; `note` models the `NOTE` column, which the name-based fallback
frame does not create and which is therefore empty there. -/
structure NormalizedRecord where
  operatore : CellValue
  codice : CellValue
  azienda : CellValue
  dip : PyFloat
  paras : PyFloat
  altro : PyFloat
  tot : PyFloat
  soci : PyFloat
  note : String
  dataStr : String
  importo : PyVal
deriving Repr, DecidableEq

/-- Concatenation of the lists produced for each element (the
`for operatore in operatori: for _, row in operatore_rows` nesting). -/
def flatMapL {α β : Type} : List α → (α → List β) → List β
  | [], _ => []
  | x :: xs, f => f x ++ flatMapL xs f

/-- `pandas.Series.unique`: distinct values in first-occurrence order. -/
def uniqueFirst (l : List String) : List String :=
  l.foldl (fun acc x => if x ∈ acc then acc else acc ++ [x]) []

/-- The operator-column choice of `data_processor.py:64-78`: position 1
when at least two columns exist, else the first column whose name
contains "operatore" (`operatori_col = next(..., None)` at line 71).
In the remaining fallback the source mutates column 0 and collects the
operator values from it but leaves `operatori_col = None`: on a
zero-column frame `df.iloc[:, 0]` already raises `IndexError` at line
77, and otherwise the first grouping access `df.iloc[:, None]` at line
203 raises `TypeError` as soon as one operator value exists, while with
no rows the operator loop is skipped and the name-based fallback over
the empty frame yields no rows either.  Every path through that case
therefore ends in an empty record collection, modelled by `none`. -/
def opIdxOf (hs : List String) : Option ℕ :=
  if 1 < hs.length then some 1
  else hs.findIdx? (fun h => containsTokLower h "operatore")

/-- The in-place mutation of the operator column
(`df.iloc[:, c] = df.iloc[:, c].astype(str).str.strip()`). -/
def mutRows (opCol : ℕ) (rows : List (List CellValue)) :
    List (List CellValue) :=
  rows.map (fun r => r.set opCol (.str (trimS (pyStr (r.getD opCol .null)))))

/-- The operator value of a (mutated) row, as compared by
`df.iloc[:, c] == operatore`. -/
def opKey (opCol : ℕ) (r : List CellValue) : String :=
  pyStr (r.getD opCol .null)

/-- The positional per-row record extraction of
`data_processor.py:206-253`: fixed positions C/D for code and company,
L+M summed into the general-staff count, N/P/O for
parasubordinate/other/partners, the total excluding partners, the
delivery-date string from the client mapping (defaulting to the
period's start date), and the monetary magnitude rule of line 238. -/
def buildRow (info : PeriodInfo) (mapping : List (String × ClientDateEntry))
    (op : String) (r : List CellValue) : NormalizedRecord :=
  let codice := if 2 < r.length then r.getD 2 .null else .str ""
  let azienda := if 3 < r.length then r.getD 3 .null else .str ""
  let d1 := if 11 < r.length then to_float (r.getD 11 .null) else PyFloat.zero
  let d2 := if 12 < r.length then to_float (r.getD 12 .null) else PyFloat.zero
  let dip := pyAdd (pyAdd PyFloat.zero d1) d2
  let paras := if 13 < r.length then to_float (r.getD 13 .null) else PyFloat.zero
  let altro := if 15 < r.length then to_float (r.getD 15 .null) else PyFloat.zero
  let soci := if 14 < r.length then to_float (r.getD 14 .null) else PyFloat.zero
  let tot := pyAdd (pyAdd dip paras) altro
  let dataStr :=
    match lookupA mapping (trimS (pyStr codice)) with
    | some e => e.data_formattata
    | none => info.start_date
  let fatt := if 35 < r.length then to_float (r.getD 35 .null) else PyFloat.zero
  let impo := if pyGt0 fatt then fatt else pyMul100 tot
  { operatore := .str op, codice := codice, azienda := azienda
    dip := dip, paras := paras, altro := altro, tot := tot, soci := soci
    note := "", dataStr := dataStr, importo := .flt impo }

/-- The final numeric normalization of `data_processor.py:301-304`
applied to the positional path, where the five count columns already
hold floats: `to_float` there collapses `nan` to `0.0` and is the
identity otherwise (`to_float_num`). -/
def finalizeRecord (r : NormalizedRecord) : NormalizedRecord :=
  { r with dip := to_float_num r.dip, paras := to_float_num r.paras
           altro := to_float_num r.altro, tot := to_float_num r.tot
           soci := to_float_num r.soci }

/-- The positional strategy (`data_processor.py:199-256`): group the
mutated rows by distinct operator value in first-occurrence order and
extract one record per row. -/
def positionalRecords (info : PeriodInfo)
    (mapping : List (String × ClientDateEntry)) (opCol : ℕ)
    (rows : List (List CellValue)) : List NormalizedRecord :=
  flatMapL (uniqueFirst (rows.map (opKey opCol)))
    (fun op => (rows.filter (fun r => opKey opCol r == op)).map
      (buildRow info mapping op))

/-- pandas `cell == 0` on a scalar cell (strings, NaN and datetimes
compare unequal). -/
def cellEqZero : CellValue → Bool
  | .int n => n == 0
  | _ => false

/-- pandas element-wise `+` on raw cells: numbers add, strings
concatenate, NaN absorbs numbers; mixed or datetime operands raise
(`none`), which the outer handler turns into an empty result. -/
def cellAdd : CellValue → CellValue → Option CellValue
  | .int m, .int n => some (.int (m + n))
  | .str s, .str u => some (.str (s ++ u))
  | .null, .int _ => some .null
  | .int _, .null => some .null
  | .null, .null => some .null
  | _, _ => none

/-- pandas element-wise `* 100` on a raw cell: numbers scale, strings
repeat, NaN stays NaN; datetimes raise (`none`). -/
def cellMul100 : CellValue → Option CellValue
  | .int n => some (.int (n * 100))
  | .str s => some (.str (String.join (List.replicate 100 s)))
  | .null => some .null
  | .dt _ => none

/-- First column whose lowercase name contains one of the tokens
(the `next((col for col in df.columns if ...), None)` searches). -/
def findTok (hs : List String) (toks : List String) : Option ℕ :=
  hs.findIdx? (fun h => toks.any (fun tok => containsTokLower h tok))

/-- The cell of a row in a resolved column, or the scalar default
assigned to the whole column when the search failed
(`data_processor.py:277-285`). -/
def rawAt (r : List CellValue) (idx : Option ℕ) (dflt : CellValue) :
    CellValue :=
  match idx with
  | some i => r.getD i .null
  | none => dflt

/-- The name-based fallback strategy (`data_processor.py:262-299` plus
the final numeric conversion of lines 301-304), translated row-wise:
resolve each output column by name tokens, recompute the total as the
sum of the three category columns when the resolved total column is
uniformly zero, attach the period start date, and derive the monetary
column from a `fatturato progressivo` column or `TOT. * 100`.  `none`
models an exception escaping to the outer handler (only possible via
`cellAdd`/`cellMul100` on a non-empty table, and `process_data` only
reaches this strategy with an empty one). -/
def fallbackRecords (info : PeriodInfo) (hs : List String)
    (rows : List (List CellValue)) : Option (List NormalizedRecord) :=
  let opI := findTok hs ["operatore", "descrizione oper"]
  let codI := findTok hs ["codice"]
  let azI := findTok hs ["ragione sociale", "azienda"]
  let dipI := findTok hs ["dipendenti"]
  let parI := findTok hs ["parasub"]
  let altI := findTok hs ["altro"]
  let totI := findTok hs ["totale"]
  let socI := findTok hs ["soci"]
  let fattI := findTok hs ["fatturato progressivo"]
  let totAllZero := rows.all (fun r => cellEqZero (rawAt r totI (.int 0)))
  rows.mapM (fun r => do
    let totCell ←
      if totAllZero then do
        let a ← cellAdd (rawAt r dipI (.int 0)) (rawAt r parI (.int 0))
        cellAdd a (rawAt r altI (.int 0))
      else pure (rawAt r totI (.int 0))
    let impo ←
      match fattI with
      | some i => pure (PyVal.flt (to_float (r.getD i .null)))
      | none => (cellMul100 totCell).map PyVal.cell
    pure { operatore := rawAt r opI (.str ""), codice := rawAt r codI (.str "")
           azienda := rawAt r azI (.str "")
           dip := to_float (rawAt r dipI (.int 0))
           paras := to_float (rawAt r parI (.int 0))
           altro := to_float (rawAt r altI (.int 0))
           tot := to_float totCell
           soci := to_float (rawAt r socI (.int 0))
           note := "", dataStr := info.start_date, importo := impo })

/-- The positional-strategy output of one `process_data` run: the
operator column is stringified in place (`mutRows`), the client-date
mapping is built over the mutated rows, and the positional extraction
runs.  The period resolution of `data_processor.py:32-51` (manual
override or `calculate_period_dates` over discovered columns) is
factored into the `info` parameter; `app.py` always passes a complete
override, and the produced records depend on the resolution only
through this value. -/
def posOf (info : PeriodInfo) (hs : List String) (opCol : ℕ)
    (rows0 : List (List CellValue)) : List NormalizedRecord :=
  positionalRecords info
    (buildMapping hs info.min_date.year info.min_date.month
      (mutRows opCol rows0))
    opCol (mutRows opCol rows0)

/-- Strategy selection (`data_processor.py:259-299`): the name-based
fallback runs only when the positional strategy collected no rows. -/
def processWithCol (info : PeriodInfo) (hs : List String) (opCol : ℕ)
    (rows0 : List (List CellValue)) : List NormalizedRecord :=
  if (posOf info hs opCol rows0).isEmpty then
    (fallbackRecords info hs (mutRows opCol rows0)).getD []
  else (posOf info hs opCol rows0).map finalizeRecord

/-- Entry point of `process_data`: header normalization, operator-column
selection, then `processWithCol`; the `none` case is the zero-column
`IndexError` that the outer `try` turns into an empty result. -/
def processData (info : PeriodInfo) (t : Table) : List NormalizedRecord :=
  match opIdxOf (t.headers.map normHeader) with
  | none => []
  | some opCol => processWithCol info (t.headers.map normHeader) opCol t.rows

/-- A sample period used by concrete evaluations below. -/
def infoJun2025 : PeriodInfo :=
  { period := "Giugno 2025", start_date := "01/06/2025"
    end_date := "30/06/2025", min_date := ⟨2025, 6, 1⟩
    max_date := ⟨2025, 6, 30⟩, italian_month := "giugno" }

/-- A one-row table whose two headcount cells parse to `inf` and
`-inf`: their sum is `nan`, so the computed total is `nan` while the
parasubordinate count stays 5.  Positions: operator at 1, code at 2,
company at 3, headcounts at 11/12, parasubordinate at 13. -/
def rowInf : List CellValue :=
  [.str "", .str "Op", .str "X", .str "Az", .str "", .str "", .str "",
   .str "", .str "", .str "", .str "", .str "inf", .str "-inf", .str "5"]

def tblInf : Table :=
  ⟨["A", "B", "C", "D", "E", "F", "G", "H", "I", "J", "K", "L", "M", "N"],
   [rowInf]⟩

/-- A minimal one-row table with only an operator column. -/
def tblMario : Table := ⟨["A", "B"], [[.str "x", .str " Mario "]]⟩

/-- The single record `processData` produces from `tblMario`. -/
def recMario : NormalizedRecord :=
  { operatore := .str "Mario", codice := .str "", azienda := .str ""
    dip := PyFloat.zero, paras := PyFloat.zero, altro := PyFloat.zero
    tot := PyFloat.zero, soci := PyFloat.zero, note := ""
    dataStr := "01/06/2025", importo := .flt PyFloat.zero }

/-! ### Lemmas about the per-client date computation -/

theorem ultimoGiorno_ge (mese anno : ℤ) : 28 ≤ ultimoGiorno mese anno := by
  unfold ultimoGiorno
  split
  · omega
  · split
    · split <;> omega
    · omega

theorem meseDaUsare_range (m d : ℤ) (hm1 : 1 ≤ m) (hm2 : m ≤ 12) :
    1 ≤ meseDaUsare m d ∧ meseDaUsare m d ≤ 12 := by
  unfold meseDaUsare
  split
  · exact ⟨hm1, hm2⟩
  · have h1 : 0 ≤ m % 12 := Int.emod_nonneg m (by norm_num)
    have h2 : m % 12 < 12 := Int.emod_lt_of_pos m (by norm_num)
    omega

theorem annoDaUsare_range (y m d : ℤ) :
    y ≤ annoDaUsare y m d ∧ annoDaUsare y m d ≤ y + 1 := by
  unfold annoDaUsare
  split <;> omega

theorem mkDatetime_valid (y m d : ℤ)
    (h : 1 ≤ y ∧ y ≤ 9999 ∧ 1 ≤ m ∧ m ≤ 12 ∧ 1 ≤ d ∧ d ≤ ultimoGiorno m y) :
    mkDatetime y m d = some ⟨y, m, d⟩ := by
  unfold mkDatetime
  rw [if_pos h]

/-- On a non-sentinel cell whose cascade yields a genuine day, the entry
is built by the normal path: raw day, business-rule month/year, clamped
day, and the matching display string. -/
theorem clientEntry_normal (y m : ℤ) (v : CellValue) (d : ℤ)
    (hy1 : 1 ≤ y) (hy2 : y + 1 ≤ 9999) (hm1 : 1 ≤ m) (hm2 : m ≤ 12)
    (hsc : sentinelCond v = false) (hd : giornoOf v = some d) (hd1 : 1 ≤ d) :
    clientEntry y m v =
      some ⟨d, ⟨annoDaUsare y m d, meseDaUsare m d,
          min d (ultimoGiorno (meseDaUsare m d) (annoDaUsare y m d))⟩,
        pad2Z (min d (ultimoGiorno (meseDaUsare m d) (annoDaUsare y m d))) ++ "/" ++
          pad2Z (meseDaUsare m d) ++ "/" ++ toString (annoDaUsare y m d)⟩ := by
  have hmese := meseDaUsare_range m d hm1 hm2
  have hanno := annoDaUsare_range y m d
  have hug := ultimoGiorno_ge (meseDaUsare m d) (annoDaUsare y m d)
  have hmk : mkDatetime (annoDaUsare y m d) (meseDaUsare m d)
      (min d (ultimoGiorno (meseDaUsare m d) (annoDaUsare y m d))) =
      some ⟨annoDaUsare y m d, meseDaUsare m d,
        min d (ultimoGiorno (meseDaUsare m d) (annoDaUsare y m d))⟩ :=
    mkDatetime_valid _ _ _
      ⟨by omega, by omega, hmese.1, hmese.2, by omega, min_le_right _ _⟩
  unfold clientEntry
  rw [if_neg (by simp [hsc])]
  simp only [hd, Option.getD_some]
  rw [hmk]

/-- C3: a row with a non-empty client code whose delivery cell is
missing, trims to the empty string, or trims to the literal "0"
produces exactly the sentinel entry: day 1, date 1 January 1900,
display string "01/01/1900". -/
theorem claim_C3 (y m : ℤ) (v : CellValue)
    (h : isna v = true ∨ trimS (pyStr v) = "" ∨ trimS (pyStr v) = "0") :
    clientEntry y m v = some ⟨1, ⟨1900, 1, 1⟩, "01/01/1900"⟩ := by
  have hc : sentinelCond v = true := by
    unfold sentinelCond
    rcases h with h | h | h <;> simp [h]
  unfold clientEntry
  rw [if_pos hc]
  rfl

theorem claim_C3_witness :
    clientEntry 2025 6 (.str " 0 ") = some ⟨1, ⟨1900, 1, 1⟩, "01/01/1900"⟩ :=
  claim_C3 2025 6 (.str " 0 ") (Or.inr (Or.inr (by decide)))

/-- C2: for a row whose delivery value parses to a day `d ≥ 1` (and a
valid selected month/year), the resolved date uses the selected month
when `d > 15` and the next month (December wrapping to January)
otherwise, and the year is incremented exactly when the resolved month
number is smaller than the selected one; in particular, selected month
6 with day 20 resolves into June of the selected year, day 10 into July
of the selected year, and selected month 12 with day 10 into January of
the following year. -/
theorem claim_C2 :
    (∀ (y m : ℤ) (v : CellValue) (d : ℤ),
      1 ≤ y → y + 1 ≤ 9999 → 1 ≤ m → m ≤ 12 →
      sentinelCond v = false → giornoOf v = some d → 1 ≤ d →
      ∃ e, clientEntry y m v = some e ∧
        e.data.month = (if 15 < d then m else m % 12 + 1) ∧
        e.data.year =
          (if (if 15 < d then m else m % 12 + 1) < m then y + 1 else y)) ∧
    (∃ e, clientEntry 2025 6 (.str "20") = some e ∧
      e.data.month = 6 ∧ e.data.year = 2025) ∧
    (∃ e, clientEntry 2025 6 (.str "10") = some e ∧
      e.data.month = 7 ∧ e.data.year = 2025) ∧
    (∃ e, clientEntry 2025 12 (.str "10") = some e ∧
      e.data.month = 1 ∧ e.data.year = 2026) := by
  refine ⟨?_, ?_, ?_, ?_⟩
  · intro y m v d hy1 hy2 hm1 hm2 hsc hd hd1
    refine ⟨_, clientEntry_normal y m v d hy1 hy2 hm1 hm2 hsc hd hd1, ?_, ?_⟩
    · unfold meseDaUsare
      rfl
    · unfold annoDaUsare meseDaUsare
      rfl
  · exact ⟨⟨20, ⟨2025, 6, 20⟩, "20/06/2025"⟩, by decide, rfl, rfl⟩
  · exact ⟨⟨10, ⟨2025, 7, 10⟩, "10/07/2025"⟩, by decide, rfl, rfl⟩
  · exact ⟨⟨10, ⟨2026, 1, 10⟩, "10/01/2026"⟩, by decide, rfl, rfl⟩

theorem claim_C2_witness :
    ∃ e, clientEntry 2025 6 (.str "20") = some e ∧
      e.data.month = (if (15 : ℤ) < 20 then 6 else 6 % 12 + 1) ∧
      e.data.year =
        (if (if (15 : ℤ) < 20 then 6 else 6 % 12 + 1) < 6 then 2025 + 1 else 2025) :=
  claim_C2.1 2025 6 (.str "20") 20 (by decide) (by decide) (by decide)
    (by decide) (by decide) (by decide) (by decide)

/-- C4: the stored day of a resolved delivery date is the parsed day
clamped to `ultimo_giorno` of the resolved month and year, and
`ultimo_giorno` realizes exactly the stated rule: months 4, 6, 9 and 11
clamp to 30, February to 29 exactly when the year satisfies the
Gregorian leap rule (divisible by 4 and not by 100, or divisible by
400) and to 28 otherwise, and every other month to 31. -/
theorem claim_C4 :
    (∀ (y m : ℤ) (v : CellValue) (d : ℤ),
      1 ≤ y → y + 1 ≤ 9999 → 1 ≤ m → m ≤ 12 →
      sentinelCond v = false → giornoOf v = some d → 1 ≤ d →
      ∃ e, clientEntry y m v = some e ∧
        e.data.day = min d (ultimoGiorno (meseDaUsare m d) (annoDaUsare y m d))) ∧
    (∀ yy : ℤ, isLeapB yy = true ↔ ((4 ∣ yy ∧ ¬((100:ℤ) ∣ yy)) ∨ (400:ℤ) ∣ yy)) ∧
    (∀ yy : ℤ, ultimoGiorno 2 yy = if isLeapB yy then 29 else 28) ∧
    (∀ (yy mm : ℤ), (mm = 4 ∨ mm = 6 ∨ mm = 9 ∨ mm = 11) →
      ultimoGiorno mm yy = 30) ∧
    (∀ (yy mm : ℤ), mm ≠ 2 → ¬(mm = 4 ∨ mm = 6 ∨ mm = 9 ∨ mm = 11) →
      ultimoGiorno mm yy = 31) := by
  refine ⟨?_, ?_, ?_, ?_, ?_⟩
  · intro y m v d hy1 hy2 hm1 hm2 hsc hd hd1
    exact ⟨_, clientEntry_normal y m v d hy1 hy2 hm1 hm2 hsc hd hd1, rfl⟩
  · intro yy
    unfold isLeapB
    simp only [Bool.or_eq_true, Bool.and_eq_true, beq_iff_eq, bne_iff_ne, ne_eq]
    omega
  · intro yy
    unfold ultimoGiorno
    norm_num
  · intro yy mm h
    unfold ultimoGiorno
    rw [if_pos h]
  · intro yy mm h2 h4
    unfold ultimoGiorno
    rw [if_neg h4, if_neg h2]

theorem claim_C4_witness :
    (∃ e, clientEntry 2024 2 (.str "30") = some e ∧
      e.data.day = min 30 (ultimoGiorno (meseDaUsare 2 30) (annoDaUsare 2024 2 30))) ∧
    (∃ e, clientEntry 2023 2 (.str "30") = some e ∧
      e.data.day = min 30 (ultimoGiorno (meseDaUsare 2 30) (annoDaUsare 2023 2 30))) ∧
    (isLeapB 2024 = true ↔ ((4 ∣ (2024:ℤ) ∧ ¬((100:ℤ) ∣ 2024)) ∨ (400:ℤ) ∣ 2024)) :=
  ⟨claim_C4.1 2024 2 (.str "30") 30 (by decide) (by decide) (by decide)
      (by decide) (by decide) (by decide) (by decide),
   claim_C4.1 2023 2 (.str "30") 30 (by decide) (by decide) (by decide)
      (by decide) (by decide) (by decide) (by decide),
   claim_C4.2.1 2024⟩

/-! ### Lemmas about the client-date mapping -/

theorem lookupA_upsertA (l : List (String × ClientDateEntry)) (k c : String)
    (e : ClientDateEntry) :
    lookupA (upsertA l k e) c = if k = c then some e else lookupA l c := by
  induction l with
  | nil => simp [upsertA, lookupA]
  | cons p t ih =>
    obtain ⟨k', e'⟩ := p
    by_cases hk : k' = k
    · subst hk
      simp only [upsertA, if_pos rfl, lookupA]
      by_cases hc : k' = c <;> simp [lookupA, hc]
    · simp only [upsertA, if_neg hk, lookupA]
      by_cases hc' : k' = c
      · subst hc'
        rw [if_pos rfl, if_neg (fun h => hk h.symm), if_pos rfl]
      · rw [if_neg hc', ih, if_neg hc']

theorem mem_keys_upsertA (l : List (String × ClientDateEntry)) (k a : String)
    (e : ClientDateEntry) :
    a ∈ (upsertA l k e).map Prod.fst ↔ a ∈ l.map Prod.fst ∨ a = k := by
  induction l with
  | nil => simp [upsertA]
  | cons p t ih =>
    obtain ⟨k', e'⟩ := p
    by_cases hk : k' = k
    · subst hk
      simp only [upsertA, if_true, eq_self_iff_true, List.map_cons,
        List.mem_cons]
      tauto
    · simp only [upsertA, if_neg hk, List.map_cons, List.mem_cons, ih]
      tauto

theorem nodup_keys_upsertA (l : List (String × ClientDateEntry)) (k : String)
    (e : ClientDateEntry) (h : (l.map Prod.fst).Nodup) :
    ((upsertA l k e).map Prod.fst).Nodup := by
  induction l with
  | nil => simp [upsertA]
  | cons p t ih =>
    obtain ⟨k', e'⟩ := p
    simp only [List.map_cons, List.nodup_cons] at h
    by_cases hk : k' = k
    · subst hk
      simpa [upsertA, List.nodup_cons] using h
    · simp only [upsertA, if_neg hk, List.map_cons, List.nodup_cons,
        mem_keys_upsertA]
      exact ⟨by tauto, ih h.2⟩

theorem clientEntry_isSome (y m : ℤ) (v : CellValue)
    (hy1 : 1 ≤ y) (hy2 : y + 1 ≤ 9999) (hm1 : 1 ≤ m) (hm2 : m ≤ 12) :
    (clientEntry y m v).isSome = true := by
  have h1 : mkDatetime y m 1 = some ⟨y, m, 1⟩ :=
    mkDatetime_valid y m 1
      ⟨hy1, by omega, hm1, hm2, le_refl 1, by have := ultimoGiorno_ge m y; omega⟩
  simp only [clientEntry]
  split
  · rfl
  · split
    · rfl
    · rw [h1]
      rfl


theorem beqOptStr_false {a b : Option String} (h : a ≠ b) : (a == b) = false :=
  beq_eq_false_iff_ne.mpr h

theorem mapStep_none {hs : List String} {y m : ℤ} {r : List CellValue}
    (acc : List (String × ClientDateEntry)) (hrc : rowCode hs r = none) :
    mapStep y m hs acc r = acc := by
  unfold mapStep
  rw [hrc]

theorem mapStep_emptyCode {hs : List String} {y m : ℤ} {r : List CellValue}
    (acc : List (String × ClientDateEntry)) (hrc : rowCode hs r = some "") :
    mapStep y m hs acc r = acc := by
  unfold mapStep
  rw [hrc]
  simp

theorem mapStep_noentry {hs : List String} {y m : ℤ} {r : List CellValue}
    {c' : String} (acc : List (String × ClientDateEntry))
    (hrc : rowCode hs r = some c') (hc' : c' ≠ "")
    (hce : clientEntry y m (delivCell hs r) = none) :
    mapStep y m hs acc r = acc := by
  unfold mapStep
  rw [hrc, hce]
  simp [hc']

theorem mapStep_entry {hs : List String} {y m : ℤ} {r : List CellValue}
    {c' : String} {e : ClientDateEntry} (acc : List (String × ClientDateEntry))
    (hrc : rowCode hs r = some c') (hc' : c' ≠ "")
    (hce : clientEntry y m (delivCell hs r) = some e) :
    mapStep y m hs acc r = upsertA acc c' e := by
  unfold mapStep
  rw [hrc, hce]
  simp [hc']

theorem lookupA_buildMapping (hs : List String) (y m : ℤ)
    (rows : List (List CellValue)) (c : String)
    (hy1 : 1 ≤ y) (hy2 : y + 1 ≤ 9999) (hm1 : 1 ≤ m) (hm2 : m ≤ 12) :
    lookupA (buildMapping hs y m rows) c =
      if c = "" then none
      else ((rows.filter (fun r => rowCode hs r == some c)).getLast?).bind
        (fun r => clientEntry y m (delivCell hs r)) := by
  induction rows using List.reverseRecOn with
  | nil =>
    simp only [buildMapping, List.foldl_nil, lookupA, List.filter_nil,
      List.getLast?_nil, Option.none_bind]
    split <;> rfl
  | append_singleton rows r ih =>
    simp only [buildMapping, List.foldl_append, List.foldl_cons,
      List.foldl_nil] at *
    rw [List.filter_append]
    cases hrc : rowCode hs r with
    | none =>
      have h1 : List.filter (fun a => rowCode hs a == some c) [r] = [] := by
        have hcond : (rowCode hs r == some c) = false := by
          rw [hrc]
          rfl
        simp [List.filter_cons, hcond]
      rw [mapStep_none _ hrc, h1, List.append_nil]
      exact ih
    | some c' =>
      by_cases hc' : c' = ""
      · subst hc'
        by_cases hc : c = ""
        · subst hc
          rw [mapStep_emptyCode _ hrc, ih]
          simp
        · have h1 : List.filter (fun a => rowCode hs a == some c) [r] = [] := by
            have hcond : (rowCode hs r == some c) = false := by
              rw [hrc]
              exact beqOptStr_false (fun h => hc ((Option.some.inj h).symm))
            simp [List.filter_cons, hcond]
          rw [mapStep_emptyCode _ hrc, h1, List.append_nil]
          exact ih
      · cases hce : clientEntry y m (delivCell hs r) with
        | none =>
          exfalso
          have hsome := clientEntry_isSome y m (delivCell hs r) hy1 hy2 hm1 hm2
          rw [hce] at hsome
          exact Bool.false_ne_true hsome
        | some e =>
          rw [mapStep_entry _ hrc hc' hce, lookupA_upsertA, ih]
          by_cases hcc : c' = c
          · subst hcc
            have h1 : List.filter (fun a => rowCode hs a == some c') [r] = [r] := by
              have hcond : (rowCode hs r == some c') = true := by
                rw [hrc]
                exact beq_self_eq_true _
              simp [List.filter_cons, hcond]
            rw [if_pos rfl, if_neg hc', h1, List.getLast?_concat,
              Option.some_bind, hce]
          · have h1 : List.filter (fun a => rowCode hs a == some c) [r] = [] := by
              have hcond : (rowCode hs r == some c) = false := by
                rw [hrc]
                exact beqOptStr_false (fun h => hcc (Option.some.inj h))
              simp [List.filter_cons, hcond]
            rw [if_neg hcc, h1, List.append_nil]

theorem nodup_keys_buildMapping (hs : List String) (y m : ℤ)
    (rows : List (List CellValue)) :
    ((buildMapping hs y m rows).map Prod.fst).Nodup := by
  suffices h : ∀ acc : List (String × ClientDateEntry),
      (acc.map Prod.fst).Nodup →
      ((rows.foldl (mapStep y m hs) acc).map Prod.fst).Nodup from
    h [] (by simp)
  induction rows with
  | nil => intro acc hacc; exact hacc
  | cons r t ih =>
    intro acc hacc
    simp only [List.foldl_cons]
    apply ih
    cases hrc : rowCode hs r with
    | none => rw [mapStep_none _ hrc]; exact hacc
    | some c' =>
      by_cases hc' : c' = ""
      · subst hc'
        rw [mapStep_emptyCode _ hrc]
        exact hacc
      · cases hce : clientEntry y m (delivCell hs r) with
        | none => rw [mapStep_noentry _ hrc hc' hce]; exact hacc
        | some e =>
          rw [mapStep_entry _ hrc hc' hce]
          exact nodup_keys_upsertA _ _ _ hacc

/-- C7: the client-date mapping contains exactly one entry per distinct
non-empty trimmed client code: looking up the empty code always fails
(such rows are skipped), looking up any other code returns exactly the
entry computed from the last row bearing that code, and the mapping's
key list has no duplicates. -/
theorem claim_C7 (hs : List String) (y m : ℤ)
    (rows : List (List CellValue)) (c : String)
    (hy1 : 1 ≤ y) (hy2 : y + 1 ≤ 9999) (hm1 : 1 ≤ m) (hm2 : m ≤ 12) :
    (lookupA (buildMapping hs y m rows) c =
      if c = "" then none
      else ((rows.filter (fun r => rowCode hs r == some c)).getLast?).bind
        (fun r => clientEntry y m (delivCell hs r))) ∧
    ((buildMapping hs y m rows).map Prod.fst).Nodup :=
  ⟨lookupA_buildMapping hs y m rows c hy1 hy2 hm1 hm2,
   nodup_keys_buildMapping hs y m rows⟩

theorem claim_C7_witness :
    (lookupA
        (buildMapping ["Codice", "Consegna PDF"] 2025 6
          [[.str "A", .str "20"], [.str "A", .str "10"], [.str "", .str "5"]])
        "A" =
      if ("A" : String) = "" then none
      else (([[.str "A", .str "20"], [.str "A", .str "10"],
          [.str "", .str "5"]].filter
            (fun r => rowCode ["Codice", "Consegna PDF"] r == some "A")).getLast?).bind
        (fun r => clientEntry 2025 6 (delivCell ["Codice", "Consegna PDF"] r))) ∧
    ((buildMapping ["Codice", "Consegna PDF"] 2025 6
        [[.str "A", .str "20"], [.str "A", .str "10"],
          [.str "", .str "5"]]).map Prod.fst).Nodup :=
  claim_C7 ["Codice", "Consegna PDF"] 2025 6
    [[.str "A", .str "20"], [.str "A", .str "10"], [.str "", .str "5"]] "A"
    (by decide) (by decide) (by decide) (by decide)

theorem pad4Z_eq_toString (n : ℤ) (h : 1000 ≤ n) : pad4Z n = toString n := by
  unfold pad4Z
  rw [if_neg (by omega), if_neg (by omega), if_neg (by omega)]

/-- Every entry the per-row computation can produce renders its display
string as the `DD/MM/YYYY` form of its stored date (for years that
print with four digits, i.e. at least 1000). -/
theorem clientEntry_display (y m : ℤ) (v : CellValue) (e : ClientDateEntry)
    (h : clientEntry y m v = some e) (hy : 1000 ≤ e.data.year) :
    e.data_formattata = fmtSpec e.data := by
  simp only [clientEntry] at h
  split at h
  · obtain rfl : sentinelEntry = e := Option.some.inj h
    decide
  · split at h
    next dta heq =>
      simp only [mkDatetime] at heq
      split at heq
      · obtain rfl : (⟨_, _, _⟩ : PyDate) = dta := Option.some.inj heq
        obtain rfl := Option.some.inj h
        simp only [fmtSpec] at *
        rw [pad4Z_eq_toString _ hy]
      · exact absurd heq (by simp)
    next heq =>
      split at h
      next dflt heq2 =>
        simp only [mkDatetime] at heq2
        split at heq2
        · obtain rfl : (⟨_, _, _⟩ : PyDate) = dflt := Option.some.inj heq2
          obtain rfl := Option.some.inj h
          simp only [fmtSpec] at *
          rw [pad4Z_eq_toString _ hy]
          have h01 : (pad2Z 1 : String) ++ "/" = "01/" := by decide
          rw [← h01]
        · exact absurd heq2 (by simp)
      next heq2 => exact absurd h (by simp)

/-- Every entry stored in the mapping was produced by `clientEntry` on
some cell value. -/
theorem buildMapping_entry (hs : List String) (y m : ℤ)
    (rows : List (List CellValue)) (c : String) (e : ClientDateEntry)
    (h : lookupA (buildMapping hs y m rows) c = some e) :
    ∃ v, clientEntry y m v = some e := by
  suffices key : ∀ acc : List (String × ClientDateEntry),
      (∀ c' e', lookupA acc c' = some e' → ∃ v, clientEntry y m v = some e') →
      ∀ c' e', lookupA (rows.foldl (mapStep y m hs) acc) c' = some e' →
        ∃ v, clientEntry y m v = some e' by
    exact key [] (fun c' e' hc => by simp [lookupA] at hc) c e h
  clear h
  induction rows with
  | nil => intro acc hacc; exact hacc
  | cons r t ih =>
    intro acc hacc
    simp only [List.foldl_cons]
    apply ih
    intro c' e' hl
    cases hrc : rowCode hs r with
    | none =>
      rw [mapStep_none _ hrc] at hl
      exact hacc _ _ hl
    | some c0 =>
      by_cases hc0 : c0 = ""
      · subst hc0
        rw [mapStep_emptyCode _ hrc] at hl
        exact hacc _ _ hl
      · cases hce : clientEntry y m (delivCell hs r) with
        | none =>
          rw [mapStep_noentry _ hrc hc0 hce] at hl
          exact hacc _ _ hl
        | some e0 =>
          rw [mapStep_entry _ hrc hc0 hce, lookupA_upsertA] at hl
          by_cases hcc : c0 = c'
          · rw [if_pos hcc] at hl
            obtain rfl := Option.some.inj hl
            exact ⟨_, hce⟩
          · rw [if_neg hcc] at hl
            exact hacc _ _ hl

/-- C10: every `ClientDateEntry` reachable in the client-date mapping
has its pre-formatted display string equal to the `DD/MM/YYYY`
rendering (zero-padded day and month, four-digit year) of its stored
datetime, while its stored `giorno` field retains the unclamped parsed
day and can therefore differ from the stored datetime's day — as
witnessed by a dash-separated ISO date cell whose first component 2024
is stored as the day while the datetime clamps to day 30. -/
theorem claim_C10 :
    (∀ (hs : List String) (y m : ℤ) (rows : List (List CellValue))
        (c : String) (e : ClientDateEntry),
      lookupA (buildMapping hs y m rows) c = some e →
      1000 ≤ e.data.year →
      e.data_formattata = fmtSpec e.data) ∧
    (∃ e, clientEntry 2025 6 (.str "2024-01-15") = some e ∧
      e.giorno = 2024 ∧ e.data.day = 30 ∧ e.giorno ≠ e.data.day ∧
      e.data_formattata = fmtSpec e.data) := by
  constructor
  · intro hs y m rows c e h hy
    obtain ⟨v, hv⟩ := buildMapping_entry hs y m rows c e h
    exact clientEntry_display y m v e hv hy
  · exact ⟨⟨2024, ⟨2025, 6, 30⟩, "30/06/2025"⟩, by decide, rfl, rfl,
      by decide, by decide⟩

theorem claim_C10_witness :
    lookupA (buildMapping ["Codice", "Consegna PDF"] 2025 6
        [[.str "A", .str "20"]]) "A" =
      some ⟨20, ⟨2025, 6, 20⟩, "20/06/2025"⟩ ∧
    (⟨20, ⟨2025, 6, 20⟩, "20/06/2025"⟩ : ClientDateEntry).data_formattata =
      fmtSpec (⟨2025, 6, 20⟩ : PyDate) :=
  ⟨by decide,
   claim_C10.1 ["Codice", "Consegna PDF"] 2025 6 [[.str "A", .str "20"]] "A"
     ⟨20, ⟨2025, 6, 20⟩, "20/06/2025"⟩ (by decide) (by decide)⟩

/-! ### Lemmas about period resolution -/

theorem dateLe_refl (a : PyDate) : dateLe a a = true := by
  simp [dateLe]

theorem dateLt_to_le {a b : PyDate} (h : dateLt a b = true) :
    dateLe a b = true := by
  simp only [dateLt, decide_eq_true_eq] at h
  simp only [dateLe, decide_eq_true_eq]
  omega

theorem dateLt_false_to_le {a b : PyDate} (h : dateLt a b = false) :
    dateLe b a = true := by
  simp only [dateLt, decide_eq_false_iff_not] at h
  simp only [dateLe, decide_eq_true_eq]
  omega

theorem dateLe_trans {a b c : PyDate} (h1 : dateLe a b = true)
    (h2 : dateLe b c = true) : dateLe a c = true := by
  simp only [dateLe, decide_eq_true_eq] at *
  omega

theorem listMinD_ne_none (d : PyDate) (ds : List PyDate) :
    listMinD (d :: ds) ≠ none := by
  simp only [listMinD]
  cases listMinD ds <;> simp

theorem listMinD_le (l : List PyDate) :
    ∀ mn, listMinD l = some mn → ∀ x ∈ l, dateLe mn x = true := by
  induction l with
  | nil => intro mn h; cases h
  | cons d ds ih =>
    intro mn h x hx
    simp only [listMinD] at h
    cases hds : listMinD ds with
    | none =>
      rw [hds] at h
      obtain rfl := Option.some.inj h
      cases ds with
      | nil =>
        simp only [List.mem_singleton] at hx
        subst hx
        exact dateLe_refl x
      | cons d' ds' => exact absurd hds (listMinD_ne_none d' ds')
    | some m' =>
      rw [hds] at h
      obtain rfl := Option.some.inj h
      rcases List.mem_cons.mp hx with rfl | hx'
      · by_cases hdm : dateLt x m' = true
        · simp [hdm, dateLe_refl]
        · rw [Bool.not_eq_true] at hdm
          simp only [hdm, if_false]
          exact dateLt_false_to_le hdm
      · by_cases hdm : dateLt d m' = true
        · simp only [hdm, if_true]
          exact dateLe_trans (dateLt_to_le hdm) (ih m' hds x hx')
        · rw [Bool.not_eq_true] at hdm
          simp only [hdm, if_false]
          exact ih m' hds x hx'

theorem listMaxD_mem (l : List PyDate) :
    ∀ mx, listMaxD l = some mx → mx ∈ l := by
  induction l with
  | nil => intro mx h; cases h
  | cons d ds ih =>
    intro mx h
    simp only [listMaxD] at h
    cases hds : listMaxD ds with
    | none =>
      rw [hds] at h
      obtain rfl := Option.some.inj h
      exact List.mem_cons_self _ _
    | some m' =>
      rw [hds] at h
      obtain rfl := Option.some.inj h
      by_cases hdm : dateLt m' d = true
      · simp only [hdm, if_true]
        exact List.mem_cons_self _ _
      · rw [Bool.not_eq_true] at hdm
        simp only [hdm, if_false]
        exact List.mem_cons_of_mem _ (ih m' hds)

theorem listMinD_le_listMaxD {l : List PyDate} {mn mx : PyDate}
    (h1 : listMinD l = some mn) (h2 : listMaxD l = some mx) :
    dateLe mn mx = true :=
  listMinD_le l mn h1 mx (listMaxD_mem l mx h2)

theorem scanStep_none_min (toDT : CellValue → Option PyDate) (t : Table)
    (st : Option PyDate × Option PyDate)
    (col : String) (h : listMinD (parsedDatesOf toDT t col) = none) :
    scanStep toDT t st col = st := by
  simp only [scanStep]
  rw [h]

theorem scanStep_none_max (toDT : CellValue → Option PyDate) (t : Table)
    (st : Option PyDate × Option PyDate)
    (col : String) {cmin : PyDate}
    (hmn : listMinD (parsedDatesOf toDT t col) = some cmin)
    (hmx : listMaxD (parsedDatesOf toDT t col) = none) :
    scanStep toDT t st col = st := by
  simp only [scanStep]
  rw [hmn, hmx]

theorem scanStep_some (toDT : CellValue → Option PyDate) (t : Table)
    (st : Option PyDate × Option PyDate)
    (col : String) {cmin cmax : PyDate}
    (hmn : listMinD (parsedDatesOf toDT t col) = some cmin)
    (hmx : listMaxD (parsedDatesOf toDT t col) = some cmax) :
    scanStep toDT t st col =
      (some (match st.1 with
             | none => cmin
             | some m => if dateLt cmin m then cmin else m),
       some (match st.2 with
             | none => cmax
             | some m => if dateLt m cmax then cmax else m)) := by
  simp only [scanStep]
  rw [hmn, hmx]

theorem scanStep_inv (toDT : CellValue → Option PyDate) (t : Table)
    (st : Option PyDate × Option PyDate)
    (col : String)
    (h : st = (none, none) ∨
      ∃ mn mx, st = (some mn, some mx) ∧ dateLe mn mx = true) :
    scanStep toDT t st col = (none, none) ∨
    ∃ mn mx, scanStep toDT t st col = (some mn, some mx) ∧
      dateLe mn mx = true := by
  cases hmn : listMinD (parsedDatesOf toDT t col) with
  | none =>
    rw [scanStep_none_min toDT t st col hmn]
    exact h
  | some cmin =>
    cases hmx : listMaxD (parsedDatesOf toDT t col) with
    | none =>
      rw [scanStep_none_max toDT t st col hmn hmx]
      exact h
    | some cmax =>
      rw [scanStep_some toDT t st col hmn hmx]
      have hcc : dateLe cmin cmax = true := listMinD_le_listMaxD hmn hmx
      right
      rcases h with rfl | ⟨mn, mx, rfl, hmm⟩
      · exact ⟨cmin, cmax, rfl, hcc⟩
      · refine ⟨_, _, rfl, ?_⟩
        show dateLe (if dateLt cmin mn then cmin else mn)
          (if dateLt mx cmax then cmax else mx) = true
        by_cases h1 : dateLt cmin mn = true
        · by_cases h2 : dateLt mx cmax = true
          · simp only [h1, h2, if_true]
            exact hcc
          · rw [Bool.not_eq_true] at h2
            simp only [h1, h2, if_true, if_false]
            exact dateLe_trans (dateLt_to_le h1) hmm
        · rw [Bool.not_eq_true] at h1
          by_cases h2 : dateLt mx cmax = true
          · simp only [h1, h2, if_true, if_false]
            exact dateLe_trans hmm (dateLt_to_le h2)
          · rw [Bool.not_eq_true] at h2
            simp only [h1, h2, if_false]
            exact hmm

theorem scanMinMax_inv (toDT : CellValue → Option PyDate) (t : Table)
    (cols : List String) :
    scanMinMax toDT t cols = (none, none) ∨
    ∃ mn mx, scanMinMax toDT t cols = (some mn, some mx) ∧
      dateLe mn mx = true := by
  unfold scanMinMax
  suffices key : ∀ (cs : List String) (st : Option PyDate × Option PyDate),
      (st = (none, none) ∨
        ∃ mn mx, st = (some mn, some mx) ∧ dateLe mn mx = true) →
      (cs.foldl (scanStep toDT t) st = (none, none) ∨
        ∃ mn mx, cs.foldl (scanStep toDT t) st = (some mn, some mx) ∧
          dateLe mn mx = true) from
    key cols (none, none) (Or.inl rfl)
  intro cs
  induction cs with
  | nil => intro st h; exact h
  | cons c cs ih =>
    intro st h
    simp only [List.foldl_cons]
    exact ih _ (scanStep_inv toDT t st c h)

theorem scanMinMax_none (toDT : CellValue → Option PyDate) (t : Table)
    (cols : List String)
    (h : ∀ col ∈ cols, parsedDatesOf toDT t col = []) :
    scanMinMax toDT t cols = (none, none) := by
  unfold scanMinMax
  induction cols with
  | nil => rfl
  | cons c cs ih =>
    rw [List.foldl_cons,
      scanStep_none_min toDT t _ c
        (by rw [h c (List.mem_cons_self c cs)]; rfl)]
    exact ih (fun col hcol => h col (List.mem_cons_of_mem c hcol))

/-- C8: for any scalar date parse `toDT` (in particular the one
`pd.to_datetime(errors="coerce")` actually implements), every resolved
period satisfies start ≤ end (the running minimum never exceeds the
running maximum), and when no candidate column contributes a
`toDT`-parseable date the period defaults to the first and last
calendar day of the current month at resolution time. -/
theorem claim_C8 (toDT : CellValue → Option PyDate) (now : PyDate)
    (t : Table) (cols : List String) :
    dateLe (calculate_period_dates toDT now t cols).min_date
      (calculate_period_dates toDT now t cols).max_date = true ∧
    ((∀ col ∈ cols, parsedDatesOf toDT t col = []) →
      (calculate_period_dates toDT now t cols).min_date =
        ⟨now.year, now.month, 1⟩ ∧
      (calculate_period_dates toDT now t cols).max_date =
        ⟨now.year, now.month, ultimoGiorno now.month now.year⟩) := by
  constructor
  · unfold calculate_period_dates
    rcases scanMinMax_inv toDT t cols with h | ⟨mn, mx, h, hle⟩
    · rw [h]
      have hug := ultimoGiorno_ge now.month now.year
      show dateLe ⟨now.year, now.month, 1⟩
        ⟨now.year, now.month, ultimoGiorno now.month now.year⟩ = true
      simp only [dateLe, decide_eq_true_eq]
      exact Or.inr ⟨trivial, Or.inr ⟨trivial, by omega⟩⟩
    · rw [h]
      exact hle
  · intro hall
    unfold calculate_period_dates
    rw [scanMinMax_none toDT t cols hall]
    exact ⟨rfl, rfl⟩

theorem claim_C8_witness :
    dateLe (calculate_period_dates pdToDatetime ⟨2025, 6, 15⟩
        ⟨["X"], []⟩ ["Data"]).min_date
      (calculate_period_dates pdToDatetime ⟨2025, 6, 15⟩
        ⟨["X"], []⟩ ["Data"]).max_date = true ∧
    (calculate_period_dates pdToDatetime ⟨2025, 6, 15⟩
        ⟨["X"], []⟩ ["Data"]).min_date = ⟨2025, 6, 1⟩ ∧
    (calculate_period_dates pdToDatetime ⟨2025, 6, 15⟩
        ⟨["X"], []⟩ ["Data"]).max_date = ⟨2025, 6, ultimoGiorno 6 2025⟩ :=
  ⟨(claim_C8 pdToDatetime ⟨2025, 6, 15⟩ ⟨["X"], []⟩ ["Data"]).1,
   (claim_C8 pdToDatetime ⟨2025, 6, 15⟩ ⟨["X"], []⟩ ["Data"]).2 (by decide)⟩

/-! ### Lemmas about record production -/

theorem mem_flatMapL {α β : Type} (l : List α) (f : α → List β) (x : β) :
    x ∈ flatMapL l f ↔ ∃ v ∈ l, x ∈ f v := by
  induction l with
  | nil => simp [flatMapL]
  | cons a t ih =>
    simp only [flatMapL, List.mem_append, ih, List.mem_cons]
    constructor
    · rintro (h | ⟨v, hv, hx⟩)
      · exact ⟨a, Or.inl rfl, h⟩
      · exact ⟨v, Or.inr hv, hx⟩
    · rintro ⟨v, (rfl | hv), hx⟩
      · exact Or.inl hx
      · exact Or.inr ⟨v, hv, hx⟩

theorem flatMapL_congr {α β : Type} (l : List α) (f g : α → List β)
    (h : ∀ v ∈ l, f v = g v) : flatMapL l f = flatMapL l g := by
  induction l with
  | nil => rfl
  | cons a t ih =>
    simp only [flatMapL]
    rw [h a (List.mem_cons_self a t),
      ih (fun v hv => h v (List.mem_cons_of_mem a hv))]

theorem flatMapL_length_congr {α β γ : Type} (l : List α) (f : α → List β)
    (g : α → List γ) (h : ∀ v ∈ l, (f v).length = (g v).length) :
    (flatMapL l f).length = (flatMapL l g).length := by
  induction l with
  | nil => rfl
  | cons a t ih =>
    simp only [flatMapL, List.length_append]
    rw [h a (List.mem_cons_self a t),
      ih (fun v hv => h v (List.mem_cons_of_mem a hv))]

theorem mem_uniqueFirst_aux (l : List String) :
    ∀ (acc : List String) (x : String),
      (x ∈ l.foldl (fun acc y => if y ∈ acc then acc else acc ++ [y]) acc ↔
        x ∈ acc ∨ x ∈ l) := by
  induction l with
  | nil => intro acc x; simp
  | cons a t ih =>
    intro acc x
    simp only [List.foldl_cons]
    rw [ih]
    by_cases ha : a ∈ acc
    · rw [if_pos ha]
      by_cases hx : x = a
      · subst hx
        simp [ha]
      · simp [List.mem_cons, hx]
    · rw [if_neg ha]
      simp only [List.mem_append, List.mem_singleton, List.mem_cons]
      tauto

theorem mem_uniqueFirst (l : List String) (x : String) :
    x ∈ uniqueFirst l ↔ x ∈ l := by
  unfold uniqueFirst
  rw [mem_uniqueFirst_aux]
  simp

theorem nodup_uniqueFirst (l : List String) : (uniqueFirst l).Nodup := by
  unfold uniqueFirst
  suffices key : ∀ acc : List String, acc.Nodup →
      (l.foldl (fun acc y => if y ∈ acc then acc else acc ++ [y]) acc).Nodup from
    key [] (by simp)
  induction l with
  | nil => intro acc h; exact h
  | cons a t ih =>
    intro acc h
    simp only [List.foldl_cons]
    by_cases ha : a ∈ acc
    · rw [if_pos ha]
      exact ih acc h
    · rw [if_neg ha]
      refine ih _ ?_
      simp [List.nodup_append, h, ha]

theorem length_filter_split {α : Type} (p : α → Bool) (l : List α) :
    (l.filter p).length + (l.filter (fun x => !(p x))).length = l.length := by
  induction l with
  | nil => rfl
  | cons a t ih =>
    by_cases h : p a = true
    · simp [List.filter_cons, h]
      omega
    · rw [Bool.not_eq_true] at h
      simp [List.filter_cons, h]
      omega

theorem flatMapL_filter_length {α : Type} (f : α → String) (vs : List String) :
    ∀ l : List α, vs.Nodup → (∀ x ∈ l, f x ∈ vs) →
      (flatMapL vs (fun v => l.filter (fun x => f x == v))).length = l.length := by
  induction vs with
  | nil =>
    intro l _ hcov
    cases l with
    | nil => rfl
    | cons a t => exact absurd (hcov a (List.mem_cons_self a t)) (List.not_mem_nil _)
  | cons v vs ih =>
    intro l hnd hcov
    obtain ⟨hv, hnd'⟩ := List.nodup_cons.mp hnd
    simp only [flatMapL, List.length_append]
    have hstep : ∀ v' ∈ vs, l.filter (fun x => f x == v') =
        (l.filter (fun x => !(f x == v))).filter (fun x => f x == v') := by
      intro v' hv'
      rw [List.filter_filter]
      apply List.filter_congr
      intro x _
      by_cases h1 : (f x == v') = true
      · have hfx' : f x = v' := beq_iff_eq.mp h1
        have hne : f x ≠ v := fun hfx => hv ((hfx'.symm.trans hfx) ▸ hv')
        rw [h1, beq_eq_false_iff_ne.mpr hne]
        rfl
      · rw [Bool.not_eq_true] at h1
        rw [h1]
        rfl
    have hflat := flatMapL_congr vs _ _ hstep
    rw [hflat, ih (l.filter (fun x => !(f x == v))) hnd' ?_]
    · exact length_filter_split _ l
    · intro x hx
      obtain ⟨hxl, hcond⟩ := List.mem_filter.mp hx
      rcases List.mem_cons.mp (hcov x hxl) with hfx | hfx
      · rw [hfx] at hcond
        simp at hcond
      · exact hfx

theorem positionalRecords_length (info : PeriodInfo)
    (mapping : List (String × ClientDateEntry)) (opCol : ℕ)
    (rows : List (List CellValue)) :
    (positionalRecords info mapping opCol rows).length = rows.length := by
  unfold positionalRecords
  rw [flatMapL_length_congr _ _ (fun op => rows.filter (fun r => opKey opCol r == op))
    (fun v _ => List.length_map _ _)]
  exact flatMapL_filter_length (opKey opCol) _ rows (nodup_uniqueFirst _)
    (fun x hx => (mem_uniqueFirst _ _).mpr (List.mem_map_of_mem _ hx))

theorem posOf_length (info : PeriodInfo) (hs : List String) (opCol : ℕ)
    (rows0 : List (List CellValue)) :
    (posOf info hs opCol rows0).length = rows0.length := by
  unfold posOf
  rw [positionalRecords_length]
  simp [mutRows]

theorem opIdxOf_eq_none_iff (hs : List String) :
    opIdxOf hs = none ↔
      hs.length ≤ 1 ∧ ∀ h ∈ hs, containsTokLower h "operatore" = false := by
  unfold opIdxOf
  by_cases h1 : 1 < hs.length
  · rw [if_pos h1]
    constructor
    · intro h
      simp at h
    · rintro ⟨hl, _⟩
      exact absurd h1 (by omega)
  · rw [if_neg h1]
    rw [List.findIdx?_eq_none_iff]
    constructor
    · intro h
      exact ⟨by omega, h⟩
    · rintro ⟨_, h⟩
      exact h

theorem processData_none (info : PeriodInfo) (t : Table)
    (h : opIdxOf (t.headers.map normHeader) = none) :
    processData info t = [] := by
  unfold processData
  rw [h]

theorem processData_some (info : PeriodInfo) (t : Table) (opCol : ℕ)
    (h : opIdxOf (t.headers.map normHeader) = some opCol) :
    processData info t =
      processWithCol info (t.headers.map normHeader) opCol t.rows := by
  unfold processData
  rw [h]

theorem processWithCol_empty_iff (info : PeriodInfo) (hs : List String)
    (opCol : ℕ) (rows0 : List (List CellValue)) :
    processWithCol info hs opCol rows0 = [] ↔ rows0 = [] := by
  have hlen : (posOf info hs opCol rows0).length = rows0.length :=
    posOf_length info hs opCol rows0
  unfold processWithCol
  by_cases hpos : (posOf info hs opCol rows0).isEmpty = true
  · rw [if_pos hpos]
    have h0 : rows0 = [] := by
      have hnil : posOf info hs opCol rows0 = [] :=
        List.isEmpty_iff.mp hpos
      rw [hnil] at hlen
      exact List.length_eq_zero.mp hlen.symm
    subst h0
    constructor
    · intro _
      rfl
    · intro _
      rfl
  · rw [if_neg hpos]
    constructor
    · intro h
      have hnil : posOf info hs opCol rows0 = [] := List.map_eq_nil_iff.mp h
      exact absurd (by rw [hnil]; rfl) hpos
    · intro h
      subst h
      exact absurd rfl hpos

/-- C9: record production never fails and degrades to an empty — never
null — collection exactly for degenerate inputs: the produced record
list is empty if and only if the table has no rows or no usable
operator column, the latter meaning at most one column and none whose
normalized name contains "operatore".  In that case the source raises
internally (`IndexError` from `df.iloc[:, 0]` on a zero-column frame at
line 77, or `TypeError` from `df.iloc[:, None]` at line 203 once a
first operator value exists) and the outer handler converts the run to
an empty result; on any other non-empty table the positional strategy
emits one record per row, so no input makes the run abort. -/
theorem claim_C9 (info : PeriodInfo) (t : Table) :
    (processData info t = [] ↔
      t.rows = [] ∨ opIdxOf (t.headers.map normHeader) = none) ∧
    (opIdxOf (t.headers.map normHeader) = none ↔
      t.headers.length ≤ 1 ∧
      ∀ h ∈ t.headers, containsTokLower (normHeader h) "operatore" = false) := by
  constructor
  · cases hop : opIdxOf (t.headers.map normHeader) with
    | none =>
      rw [processData_none info t hop]
      simp
    | some opCol =>
      rw [processData_some info t opCol hop, processWithCol_empty_iff]
      constructor
      · intro h
        exact Or.inl h
      · rintro (h | h)
        · exact h
        · simp at h
  · rw [opIdxOf_eq_none_iff]
    simp [List.length_map, List.mem_map]

/-- Every record `processData` emits is a finalized positional record:
the fallback strategy only runs when the positional strategy produced
no rows, which forces an empty table and hence no fallback records
either. -/
theorem processData_mem (info : PeriodInfo) (t : Table) (r : NormalizedRecord)
    (hr : r ∈ processData info t) :
    ∃ mapping op row, r = finalizeRecord (buildRow info mapping op row) := by
  cases hop : opIdxOf (t.headers.map normHeader) with
  | none =>
    rw [processData_none info t hop] at hr
    cases hr
  | some opCol =>
    rw [processData_some info t opCol hop] at hr
    unfold processWithCol at hr
    by_cases hpos :
        (posOf info (t.headers.map normHeader) opCol t.rows).isEmpty = true
    · rw [if_pos hpos] at hr
      have h0 : t.rows = [] := by
        have hond := posOf_length info (t.headers.map normHeader) opCol t.rows
        rw [List.isEmpty_iff.mp hpos] at hond
        exact List.length_eq_zero.mp hond.symm
      rw [h0] at hr
      exact absurd hr (List.not_mem_nil r)
    · rw [if_neg hpos] at hr
      obtain ⟨r0, hr0, rfl⟩ := List.mem_map.mp hr
      unfold posOf positionalRecords at hr0
      obtain ⟨op, _, hr1⟩ := (mem_flatMapL _ _ _).mp hr0
      obtain ⟨row, _, rfl⟩ := List.mem_map.mp hr1
      exact ⟨_, op, row, rfl⟩

theorem to_float_num_finite_all {a b c : PyFloat} (ha : a.isFinite = true)
    (hb : b.isFinite = true) (hc : c.isFinite = true) :
    to_float_num (pyAdd (pyAdd a b) c) =
      pyAdd (pyAdd (to_float_num a) (to_float_num b)) (to_float_num c) := by
  cases a <;> cases b <;> cases c <;>
    simp_all [PyFloat.isFinite, to_float_num, pyAdd]

/-- C1 (amended): every emitted record's counts and total are the
NaN-normalized values of the computed counts `a`, `b`, `c` and of their
sum, and whenever all three computed counts are finite the record's
total equals the sum of its general-staff, parasubordinate and other
counts (the partners count never enters the sum).  Without the
finiteness proviso the equality can fail, because the final
normalization maps a NaN total to zero while the finite summands
survive. -/
theorem claim_C1_amended (info : PeriodInfo) (t : Table)
    (r : NormalizedRecord) (hr : r ∈ processData info t) :
    ∃ a b c : PyFloat,
      r.dip = to_float_num a ∧ r.paras = to_float_num b ∧
      r.altro = to_float_num c ∧
      r.tot = to_float_num (pyAdd (pyAdd a b) c) ∧
      (a.isFinite = true → b.isFinite = true → c.isFinite = true →
        r.tot = pyAdd (pyAdd r.dip r.paras) r.altro) := by
  obtain ⟨mapping, op, row, rfl⟩ := processData_mem info t r hr
  refine ⟨(buildRow info mapping op row).dip,
    (buildRow info mapping op row).paras,
    (buildRow info mapping op row).altro, rfl, rfl, rfl, rfl, ?_⟩
  intro ha hb hc
  show to_float_num (pyAdd (pyAdd (buildRow info mapping op row).dip
      (buildRow info mapping op row).paras)
      (buildRow info mapping op row).altro) =
    pyAdd (pyAdd (to_float_num (buildRow info mapping op row).dip)
      (to_float_num (buildRow info mapping op row).paras))
      (to_float_num (buildRow info mapping op row).altro)
  exact to_float_num_finite_all ha hb hc

theorem claim_C1_witness :
    ∃ a b c : PyFloat,
      recMario.dip = to_float_num a ∧ recMario.paras = to_float_num b ∧
      recMario.altro = to_float_num c ∧
      recMario.tot = to_float_num (pyAdd (pyAdd a b) c) ∧
      (a.isFinite = true → b.isFinite = true → c.isFinite = true →
        recMario.tot = pyAdd (pyAdd recMario.dip recMario.paras)
          recMario.altro) :=
  claim_C1_amended infoJun2025 tblMario recMario (by decide)

/-- C1 (counterexample): on a row whose two headcount cells parse to
`inf` and `-inf`, the computed total is NaN, the final normalization
zeroes it, and the emitted record's total (0) differs from the sum of
its emitted counts (0 + 5 + 0). -/
theorem claim_C1_counterexample :
    ∃ r ∈ processData infoJun2025 tblInf,
      r.tot ≠ pyAdd (pyAdd r.dip r.paras) r.altro := by decide

/-- The fully-evaluated cascade of `to_float` on a string cell. -/
theorem to_float_str_eval (s : String) :
    to_float (.str s) =
      match pyFloatOfString s with
      | some x => x
      | none =>
        match pyFloatOfString (euroTransform s) with
        | some x => x
        | none =>
          match pyFloatOfString (euroTransform (stripCurrency s)) with
          | some x => x
          | none => PyFloat.zero := rfl

/-- When the special-literal recognizer rejects a string, `float()` on
it either fails or yields a finite value. -/
theorem pyFloatOfString_shape (s : String) (h : parseSpecialFloat s = none) :
    pyFloatOfString s = none ∨
    ∃ d, pyFloatOfString s = some (.finite d) := by
  unfold pyFloatOfString
  rw [h]
  cases hpd : parseDecimalBody (splitSign (trimCharsL s.data)).2 with
  | none => exact Or.inl rfl
  | some q => exact Or.inr ⟨_, rfl⟩

theorem to_float_finite_of_no_special (s : String)
    (h1 : parseSpecialFloat s = none)
    (h2 : parseSpecialFloat (euroTransform s) = none)
    (h3 : parseSpecialFloat (euroTransform (stripCurrency s)) = none) :
    (to_float (.str s)).isFinite = true := by
  rw [to_float_str_eval]
  rcases pyFloatOfString_shape s h1 with hn1 | ⟨d1, hd1⟩
  · rw [hn1]
    rcases pyFloatOfString_shape _ h2 with hn2 | ⟨d2, hd2⟩
    · rw [hn2]
      rcases pyFloatOfString_shape _ h3 with hn3 | ⟨d3, hd3⟩
      · rw [hn3]
        rfl
      · rw [hd3]
        rfl
    · rw [hd2]
      rfl
  · rw [hd1]
    rfl

/-- C5 (amended): `to_float` is a total function — every cell value,
including `None`, non-numeric strings, currency-prefixed strings and
European-formatted numbers, yields a float — and the result is finite
for every input except strings that denote an infinity or NaN at one of
the three parsing stages (those propagate as non-finite floats);
`to_float("abc") = 0.0`, `to_float("1.234,56") = 1234.56`, and any
string for which all three parsing attempts fail maps to `0.0`. -/
theorem claim_C5_amended :
    (∀ v : CellValue, (∀ s, v = CellValue.str s →
        parseSpecialFloat s = none ∧
        parseSpecialFloat (euroTransform s) = none ∧
        parseSpecialFloat (euroTransform (stripCurrency s)) = none) →
      (to_float v).isFinite = true) ∧
    to_float (.str "abc") = PyFloat.zero ∧
    to_float (.str "1.234,56") = PyFloat.finite ⟨123456, 2⟩ ∧
    (∀ s : String, pyFloatOfString s = none →
      pyFloatOfString (euroTransform s) = none →
      pyFloatOfString (euroTransform (stripCurrency s)) = none →
      to_float (.str s) = PyFloat.zero) := by
  refine ⟨?_, by decide, by decide, ?_⟩
  · intro v h
    cases v with
    | null => rfl
    | int n => rfl
    | dt d => rfl
    | str s =>
      obtain ⟨h1, h2, h3⟩ := h s rfl
      exact to_float_finite_of_no_special s h1 h2 h3
  · intro s hA hB hC
    rw [to_float_str_eval, hA, hB, hC]

/-- C5 (counterexample): the string "inf" passes Python's direct
`float()` conversion and `to_float` returns positive infinity, a
non-finite float, contradicting the claim that every input yields a
finite float. -/
theorem claim_C5_counterexample :
    to_float (CellValue.str "inf") = PyFloat.pinf ∧
    (to_float (CellValue.str "inf")).isFinite = false := by decide

theorem claim_C5_witness :
    (to_float (CellValue.str "xyz")).isFinite = true ∧
    to_float (CellValue.str "a,b") = PyFloat.zero :=
  ⟨claim_C5_amended.1 (.str "xyz")
    (fun s hs => by
      injection hs with h2
      subst h2
      exact ⟨by decide, by decide, by decide⟩),
   claim_C5_amended.2.2.2 "a,b" (by decide) (by decide) (by decide)⟩

/-! ### Concrete sanity checks of the embedding -/

example : clientEntry 2025 6 (.str "20") =
    some ⟨20, ⟨2025, 6, 20⟩, "20/06/2025"⟩ := by decide
example : clientEntry 2025 6 (.str "10") =
    some ⟨10, ⟨2025, 7, 10⟩, "10/07/2025"⟩ := by decide
example : clientEntry 2025 12 (.str "10") =
    some ⟨10, ⟨2026, 1, 10⟩, "10/01/2026"⟩ := by decide
example : clientEntry 2025 6 (.str " 0 ") = some sentinelEntry := by decide
example : clientEntry 2025 6 .null = some sentinelEntry := by decide
example : clientEntry 2025 6 (.str "2024-01-15") =
    some ⟨2024, ⟨2025, 6, 30⟩, "30/06/2025"⟩ := by decide
example : clientEntry 2025 6 (.str "0/1/2024") =
    some ⟨1, ⟨2025, 6, 1⟩, "01/06/2025"⟩ := by decide
example : clientEntry 2024 2 (.str "30") =
    some ⟨30, ⟨2024, 2, 29⟩, "29/02/2024"⟩ := by decide
example : clientEntry 2023 2 (.str "30") =
    some ⟨30, ⟨2023, 2, 28⟩, "28/02/2023"⟩ := by decide
example : clientEntry 2025 6 (.dt ⟨2024, 1, 15⟩) =
    some ⟨2024, ⟨2025, 6, 30⟩, "30/06/2025"⟩ := by decide
example :
    processData infoJun2025
      ⟨["A", "B"], [[.str "x", .str " Mario "]]⟩ =
    [{ operatore := .str "Mario", codice := .str "", azienda := .str ""
       dip := PyFloat.zero, paras := PyFloat.zero, altro := PyFloat.zero
       tot := PyFloat.zero, soci := PyFloat.zero, note := ""
       dataStr := "01/06/2025", importo := .flt PyFloat.zero }] := by decide
example : processData infoJun2025 ⟨["A", "B"], []⟩ = [] := by decide
example : processData infoJun2025 ⟨[], [[CellValue.int 3]]⟩ = [] := by decide
example : to_float (.str "abc") = PyFloat.zero := by decide
example : to_float (.str "1.234,56") = .finite ⟨123456, 2⟩ := by decide
example : to_float (.str " € 42 ") = .finite ⟨42, 0⟩ := by decide
example : to_float .null = PyFloat.zero := by decide
example : to_float (.str "inf") = .pinf := by decide
example : to_float (.str "-inf") = .ninf := by decide
example : to_float (.str "nan") = .nan := by decide
example : to_float (.str "1_0.5") = .finite ⟨105, 1⟩ := by decide
example : to_float (.str "1__0") = PyFloat.zero := by decide
example : to_float (.str "2e3") = .finite ⟨2000, 0⟩ := by decide
example : to_float (.int (-7)) = .finite ⟨-7, 0⟩ := by decide
example : Int.tdiv (-7) 2 = -3 := by decide
example : Dec.trunc ⟨-75, 1⟩ = -7 := by decide
example : processData infoJun2025 ⟨["X"], [[CellValue.int 3]]⟩ = [] := by decide
example : opIdxOf ["X"] = none := by decide
example : opIdxOf ["Operatore x"] = some 0 := by decide
example : (calculate_period_dates pdToDatetime ⟨2025, 6, 15⟩
    ⟨["Data"], [[CellValue.dt ⟨2025, 3, 10⟩], [CellValue.dt ⟨2025, 3, 20⟩]]⟩
    ["Data"]).min_date = ⟨2025, 3, 10⟩ := by decide
